import Mathlib

/-!
Shallow embedding of `src/automl/utils/pretty_logging.py` and proofs about it.

Strings are modelled by Lean `String` (a list of Unicode code points, matching
Python `str`).  Regex substitution is modelled by an explicit left-to-right
single-pass scanner, exactly as `re.sub` behaves.  Fallible Python operations
(`KeyError` from the style dictionary, a raising `formatException`, a raising
encoding probe) are modelled with `Option`/`Except`.
-/

namespace PrettyLogging

/-- Parameter byte accepted by the regex `\x1B\[[0-9;]*[A-Za-z]` used in
`remove_colorstr`: a decimal digit or a semicolon. -/
def isCSIParam (c : Char) : Bool :=
  (48 ≤ c.toNat && c.toNat ≤ 57) || c.toNat == 59

/-- Final byte accepted by the regex in `remove_colorstr`: an ASCII letter
(`[A-Za-z]`). -/
def isFinalLetter (c : Char) : Bool :=
  (65 ≤ c.toNat && c.toNat ≤ 90) || (97 ≤ c.toNat && c.toNat ≤ 122)

/-- Attempt to match the regex `\x1B\[[0-9;]*[A-Za-z]` at the head of the
character list; on success return the characters after the match.  The
character class `[0-9;]` is disjoint from `[A-Za-z]`, so the greedy scan
without backtracking is exact. -/
def matchCSI (l : List Char) : Option (List Char) :=
  match l with
  | c1 :: c2 :: rest =>
    if c1 = '\x1b' then
      if c2 = '[' then
        match rest.dropWhile isCSIParam with
        | f :: tail => if isFinalLetter f then some tail else none
        | [] => none
      else none
    else none
  | _ => none

/-- Single left-to-right pass of `re.sub(pattern, "", s)`: at each position try
to match; on a match, drop it and continue after it; otherwise keep the
character.  Fuel-indexed so that it is structurally recursive (the fuel is
always at least the length of the list). -/
def stripCSIFuel : Nat → List Char → List Char
  | 0, l => l
  | _ + 1, [] => []
  | n + 1, c :: rest =>
    match matchCSI (c :: rest) with
    | some tail => stripCSIFuel n tail
    | none => c :: stripCSIFuel n rest

/-- The substitution `re.sub(r"\x1B\[[0-9;]*[A-Za-z]", "", ·)` on a character list. -/
def stripCSI (l : List Char) : List Char :=
  stripCSIFuel l.length l

/-- Function `remove_colorstr` from the source: delete every substring matching
`\x1B\[[0-9;]*[A-Za-z]` in one pass. -/
def remove_colorstr (s : String) : String :=
  ⟨stripCSI s.data⟩

/-- Does some suffix of the list start with a match of the colour regex?
(`re.search` would find a match in the string.) -/
def hasCSIMatch : List Char → Bool
  | [] => false
  | c :: rest => (matchCSI (c :: rest)).isSome || hasCSIMatch rest

/-- Membership of a code point in the emoji ranges of `remove_emoji`:
U+1F300–U+1FAFF, U+2600–U+27BF, U+1F1E6–U+1F1FF. -/
def isEmojiChar (c : Char) : Bool :=
  (0x1F300 ≤ c.toNat && c.toNat ≤ 0x1FAFF) ||
  (0x2600 ≤ c.toNat && c.toNat ≤ 0x27BF) ||
  (0x1F1E6 ≤ c.toNat && c.toNat ≤ 0x1F1FF)

/-- Function `remove_emoji` from the source: `re.sub` of `[ranges]+` with `""`, i.e.
delete every character lying in the ranges. -/
def remove_emoji (s : String) : String :=
  ⟨s.data.filter (fun c => !isEmojiChar c)⟩

/-- The `colors` dictionary of `colorstr`, in source order. -/
def colorTable : List (String × String) :=
  [("black", "\x1b[30m"), ("red", "\x1b[31m"), ("green", "\x1b[32m"),
   ("yellow", "\x1b[33m"), ("blue", "\x1b[34m"), ("magenta", "\x1b[35m"),
   ("cyan", "\x1b[36m"), ("white", "\x1b[37m"),
   ("bright_black", "\x1b[90m"), ("bright_red", "\x1b[91m"),
   ("bright_green", "\x1b[92m"), ("bright_yellow", "\x1b[93m"),
   ("bright_blue", "\x1b[94m"), ("bright_magenta", "\x1b[95m"),
   ("bright_cyan", "\x1b[96m"), ("bright_white", "\x1b[97m"),
   ("end", "\x1b[0m"), ("bold", "\x1b[1m"), ("underline", "\x1b[4m")]

/-- The `colors[x]` lookup; `none` models the `KeyError` raised on an unknown
style name. -/
def colors (s : String) : Option String :=
  (colorTable.find? (fun kv => kv.1 == s)).map (·.2)

/-- The generator join `"".join(colors[str(x)] for x in args)`, stopping at the first unknown
style exactly as the generator raises at the first bad lookup. -/
def mapColors : List String → Option (List String)
  | [] => some []
  | a :: as => match colors a with
    | some c => (mapColors as).map (c :: ·)
    | none => none

/-- Concatenation (`"".join`) of the looked-up codes. -/
def strJoin : List String → String
  | [] => ""
  | s :: rest => s ++ strJoin rest

/-- Body of `colorstr` after the argument split: codes, then the string, then
`colors["end"]`. -/
def colorstrAux (args : List String) (string : String) : Option String :=
  (mapColors args).map (fun codes => strJoin codes ++ string ++ "\x1b[0m")

/-- Function `colorstr(*input)`: with one argument the defaults `blue`, `bold` are
used and the argument is the text; with more, the last argument is the text.
`none` models the exception path (`KeyError` on an unknown style, or
`IndexError` on an empty call). -/
def colorstr : List String → Option String
  | [] => none
  | [s] => colorstrAux ["blue", "bold"] s
  | input => colorstrAux input.dropLast (input.getLastD "")

/-- One `str.replace(c, r)` where the needle is a single character: every
occurrence of `c` is replaced by `r`. -/
def replaceChar : List Char → Char → List Char → List Char
  | [], _, _ => []
  | x :: xs, c, r => (if x = c then r else [x]) ++ replaceChar xs c r

/-- The chained `.replace` calls of `_emojis`, in source order. -/
def emojiSubL (l : List Char) : List Char :=
  replaceChar (replaceChar (replaceChar (replaceChar (replaceChar
    (replaceChar l '🐛' "DEBUG".data) '📘' "INFO".data)
    '🎉' "SUCCESS".data) '🚧' "WARNING".data)
    '🐞' "ERROR".data) '💀' "CRITICAL".data

/-- The glyph → severity-label mapping of `_emojis`, spec style: a single
simultaneous substitution on characters. -/
def glyphLabel (c : Char) : Option String :=
  if c = '🐛' then some "DEBUG"
  else if c = '📘' then some "INFO"
  else if c = '🎉' then some "SUCCESS"
  else if c = '🚧' then some "WARNING"
  else if c = '🐞' then some "ERROR"
  else if c = '💀' then some "CRITICAL"
  else none

/-- Simultaneous per-character substitution of known glyphs by their labels;
characters with no label mapping are kept. -/
def glyphLabelSub (s : String) : String :=
  ⟨(s.data.map (fun c => match glyphLabel c with
      | some lab => lab.data
      | none => [c])).flatten⟩

/-- Function `_emojis(s)`: probe whether the destination encoding accepts `s`
(`s.encode(sys.stdout.encoding or "utf-8", errors="strict")`); on success
return `s` unchanged, on any exception do the glyph replacements.  The probe
is a parameter; `Except.error` covers both an encode failure and a probe that
itself raises. -/
def _emojis (p : String → Except Unit Unit) (s : String) : String :=
  match p s with
  | Except.ok _ => s
  | Except.error _ => ⟨emojiSubL s.data⟩

/-- The three display flags of `PrettyFormatter`. -/
structure PrettyFormatter where
  use_color : Bool
  use_emoji : Bool
  show_time : Bool
deriving DecidableEq

/-- A log record as consumed by `PrettyFormatter.format`: numeric level,
`levelname`, the (already interpolated) message, the rendered timestamp text
(`formatTime`), and the exception-trace rendering — `none` when `exc_info`
is absent, `Except.error` when `formatException` raises (swallowed by the
`try`/`except` in `format`). -/
structure LogRecord where
  levelno : Nat
  levelname : String
  message : String
  timeText : String
  excInfo : Option (Except Unit String)

/-- Table `PrettyFormatter.LEVEL_STYLE`: level number → (label, colour, emoji). -/
def LEVEL_STYLE (n : Nat) : Option (String × String × String) :=
  if n = 10 then some ("DEBUG", "cyan", "🐛")
  else if n = 20 then some ("INFO", "blue", "📘")
  else if n = 25 then some ("SUCCESS", "green", "🎉")
  else if n = 30 then some ("WARNING", "yellow", "🚧")
  else if n = 40 then some ("ERROR", "red", "🐞")
  else if n = 50 then some ("CRITICAL", "magenta", "💀")
  else none

/-- The lookup `self.LEVEL_STYLE.get(record.levelno, (record.levelname, None, ""))`. -/
def levelStyle (r : LogRecord) : String × Option String × String :=
  match LEVEL_STYLE r.levelno with
  | some (lab, c, e) => (lab, some c, e)
  | none => (r.levelname, none, "")

/-- Value of `msg` after the exception-trace step of `format`: the base message, plus
newline and trace when `exc_info` is present and renders; a raising
`formatException` is swallowed. -/
def baseMsg (r : LogRecord) : String :=
  match r.excInfo with
  | none => r.message
  | some (Except.ok t) => r.message ++ "\n" ++ t
  | some (Except.error _) => r.message

/-- Function `colorstr` lifted to `Except`: an unknown style would escape `format` as
an exception. -/
def colorstrE (input : List String) : Except Unit String :=
  match colorstr input with
  | some s => Except.ok s
  | none => Except.error ()

/-- The `level_tag` built by `format`: coloured label when `use_color` and a
colour is present, then ` <emoji>` appended when `use_emoji` and the emoji is
non-empty. -/
def mkLevelTag (f : PrettyFormatter) (label : String) (color : Option String)
    (emoji : String) : Except Unit String :=
  let base := match f.use_color, color with
    | true, some c => colorstrE ["bold", c, label]
    | _, _ => Except.ok label
  match base with
  | Except.ok t => Except.ok (if f.use_emoji && emoji != "" then t ++ " " ++ emoji else t)
  | Except.error e => Except.error e

/-- The timestamp part of `parts` (empty list when `show_time` is off). -/
def mkTsPart (f : PrettyFormatter) (r : LogRecord) (color : Option String) :
    Except Unit (List String) :=
  if f.show_time then
    match f.use_color, color with
    | true, some c => (colorstrE [c, "bold", r.timeText]).map (fun s => [s])
    | _, _ => Except.ok [r.timeText]
  else Except.ok []

/-- The join `" ".join(...)`. -/
def joinSp : List String → String
  | [] => ""
  | [s] => s
  | s :: rest => s ++ " " ++ joinSp rest

/-- The two conditional stripping passes at the end of `format`: colour
stripping when `use_color` is off, emoji stripping when `use_emoji` is off. -/
def stripsCE (f : PrettyFormatter) (s : String) : String :=
  let s1 := if !f.use_color then remove_colorstr s else s
  if !f.use_emoji then remove_emoji s1 else s1

/-- Function `format` up to (excluding) the final `_emojis` fallback: build the parts,
join the non-empty ones with single spaces, then apply the conditional
strips. -/
def outPre (f : PrettyFormatter) (r : LogRecord) : Except Unit String :=
  match mkLevelTag f (levelStyle r).1 (levelStyle r).2.1 (levelStyle r).2.2,
        mkTsPart f r (levelStyle r).2.1 with
  | Except.ok tag, Except.ok tsl =>
    Except.ok (stripsCE f (joinSp ((tsl ++ [tag, baseMsg r]).filter (fun p => p != ""))))
  | Except.error e, _ => Except.error e
  | _, Except.error e => Except.error e

/-- Method `PrettyFormatter.format(record)`: the pre-fallback line passed through the
`_emojis` encoding fallback against the destination probe `p`. -/
def format (f : PrettyFormatter) (r : LogRecord) (p : String → Except Unit Unit) :
    Except Unit String :=
  (outPre f r).map (_emojis p)

/-- The base message as transformed by the conditional stripping passes of
`format` (the same passes are applied to the joined line). -/
def processedMsg (f : PrettyFormatter) (r : LogRecord) : String :=
  stripsCE f (baseMsg r)

/-- Environment flags read by `set_logging` (`NO_COLOR`, `NO_EMOJI`,
`NO_TIME`). -/
structure EnvCfg where
  no_color : Bool
  no_emoji : Bool
  no_time : Bool
deriving DecidableEq

/-- Identity of a handler's destination: a stream handler (with the flag
telling whether its stream is `sys.stdout`) or a file handler with its
`baseFilename`. -/
inductive HandlerKind where
  | stream (isStdout : Bool)
  | file (baseFilename : String)
deriving DecidableEq

/-- A logging handler: destination, level, and the `PrettyFormatter`
configuration installed on it. -/
structure Handler where
  kind : HandlerKind
  level : Nat
  fmtr : PrettyFormatter
deriving DecidableEq

/-- The mutable state of one named logger. -/
structure LoggerState where
  level : Nat
  propagate : Bool
  handlers : List Handler
deriving DecidableEq

/-- The test `isinstance(h, logging.StreamHandler) and h.stream is sys.stdout`. -/
def isStdoutStream (h : Handler) : Bool :=
  match h.kind with
  | HandlerKind.stream true => true
  | _ => false

/-- The test `isinstance(h, logging.FileHandler) and h.baseFilename == path`. -/
def isFileFor (path : String) (h : Handler) : Bool :=
  match h.kind with
  | HandlerKind.file bf => bf == path
  | _ => false

/-- Function `set_logging(name, verbose, log_file)` as a transformer of the named
logger's state.  `abspath` models `os.path.abspath`.  Console handler: added
with the environment-derived formatter if no stdout stream handler exists,
otherwise every existing stdout stream handler gets the new level and
formatter.  File handler: added (colour and emoji forced off) only when a
non-empty path is given and no file handler for that absolute path exists. -/
def set_logging (env : EnvCfg) (abspath : String → String) (verbose : Bool)
    (log_file : Option String) (st : LoggerState) : LoggerState :=
  let level := if verbose then 10 else 20
  let console_fmt : PrettyFormatter := ⟨!env.no_color, !env.no_emoji, !env.no_time⟩
  let hs := st.handlers
  let hs :=
    if hs.any isStdoutStream then
      hs.map (fun h => if isStdoutStream h then { h with level := level, fmtr := console_fmt } else h)
    else
      hs ++ [⟨HandlerKind.stream true, level, console_fmt⟩]
  let hs :=
    match log_file with
    | some lf =>
      if lf != "" && !(hs.any (isFileFor (abspath lf))) then
        hs ++ [⟨HandlerKind.file (abspath lf), level, ⟨false, false, !env.no_time⟩⟩]
      else hs
    | none => hs
  { level := level, propagate := false, handlers := hs }

/-- A freshly created logger: no handlers yet. -/
def initLogger : LoggerState := ⟨0, true, []⟩

/-- Shape of the tail of an ANSI style code after `ESC [`: zero or more
parameter bytes followed by exactly one final letter. -/
def goodTail : List Char → Bool
  | [] => false
  | [f] => isFinalLetter f
  | c :: rest => isCSIParam c && goodTail rest

/-- Shape of a complete ANSI style code: `ESC [`, parameter bytes, one final
letter, nothing else. -/
def goodCodeL : List Char → Bool
  | c1 :: c2 :: rest => c1 == '\x1b' && c2 == '[' && goodTail rest
  | _ => false

end PrettyLogging

namespace PrettyLogging

/-! ### Basic lemmas about the CSI scanner -/

theorem length_dropWhile_le (p : Char → Bool) :
    ∀ l : List Char, (l.dropWhile p).length ≤ l.length := by
  intro l
  induction l with
  | nil => simp
  | cons c rest ih =>
    rw [List.dropWhile_cons]
    split
    · exact Nat.le_trans ih (Nat.le_succ _)
    · simp

theorem matchCSI_some_length {l t : List Char} (h : matchCSI l = some t) :
    t.length < l.length := by
  unfold matchCSI at h
  split at h
  case h_2 => exact absurd h (by simp)
  case h_1 c1 c2 rest =>
    split_ifs at h
    rename_i h1 h2
    revert h
    cases hd : rest.dropWhile isCSIParam with
    | nil => intro h; exact absurd h (by simp)
    | cons f tail =>
      intro h
      simp only [] at h
      split_ifs at h
      have ht : t = tail := by injection h with h0; exact h0.symm
      subst ht
      have : (f :: t).length ≤ rest.length := by
        rw [← hd]; exact length_dropWhile_le _ _
      simp at this ⊢
      omega

theorem stripCSIFuel_congr :
    ∀ (n m : Nat) (l : List Char), l.length ≤ n → l.length ≤ m →
      stripCSIFuel n l = stripCSIFuel m l := by
  intro n
  induction n with
  | zero =>
    intro m l hn _
    have h0 : l = [] := List.eq_nil_of_length_eq_zero (Nat.le_zero.mp hn)
    subst h0
    cases m <;> rfl
  | succ n ih =>
    intro m l hn hm
    cases m with
    | zero =>
      have h0 : l = [] := List.eq_nil_of_length_eq_zero (Nat.le_zero.mp hm)
      subst h0
      rfl
    | succ m =>
      cases l with
      | nil => rfl
      | cons c rest =>
        simp only [stripCSIFuel]
        cases h : matchCSI (c :: rest) with
        | some tail =>
          have hlen := matchCSI_some_length h
          simp only [List.length_cons] at hn hm hlen
          exact ih m tail (by omega) (by omega)
        | none =>
          simp only [List.length_cons] at hn hm
          rw [ih m rest (by omega) (by omega)]

theorem stripCSI_nil : stripCSI [] = [] := rfl

theorem stripCSI_cons (c : Char) (rest : List Char) :
    stripCSI (c :: rest) =
      match matchCSI (c :: rest) with
      | some tail => stripCSI tail
      | none => c :: stripCSI rest := by
  show stripCSIFuel (rest.length + 1) (c :: rest) = _
  simp only [stripCSIFuel]
  cases h : matchCSI (c :: rest) with
  | some tail =>
    have hlen := matchCSI_some_length h
    simp only [List.length_cons] at hlen
    exact stripCSIFuel_congr _ _ tail (by omega) (by omega)
  | none => rfl

theorem matchCSI_nil : matchCSI [] = none := rfl

theorem matchCSI_single (c : Char) : matchCSI [c] = none := rfl

theorem matchCSI_not_esc {c : Char} (h : c ≠ '\x1b') (l : List Char) :
    matchCSI (c :: l) = none := by
  unfold matchCSI
  cases l with
  | nil => rfl
  | cons c2 rest => simp [h]

theorem isFinalLetter_not_param {c : Char} (h : isFinalLetter c = true) :
    isCSIParam c = false := by
  by_contra hc
  have hc' : isCSIParam c = true := by revert hc; cases isCSIParam c <;> simp
  unfold isFinalLetter at h
  unfold isCSIParam at hc'
  simp only [Bool.or_eq_true, Bool.and_eq_true, decide_eq_true_eq, beq_iff_eq] at h hc'
  omega

theorem matchCSI_code {ps : List Char} {f : Char} (hps : ps.all isCSIParam = true)
    (hf : isFinalLetter f = true) (k : List Char) :
    matchCSI ('\x1b' :: '[' :: (ps ++ f :: k)) = some k := by
  have hd : (ps ++ f :: k).dropWhile isCSIParam = f :: k := by
    rw [List.dropWhile_append_of_pos (List.all_eq_true.mp hps)]
    rw [List.dropWhile_cons, if_neg (by simp [isFinalLetter_not_param hf])]
  simp only [matchCSI, hd]
  simp [hf]

theorem stripCSI_code_drop {ps : List Char} {f : Char} (hps : ps.all isCSIParam = true)
    (hf : isFinalLetter f = true) (k : List Char) :
    stripCSI ('\x1b' :: '[' :: (ps ++ f :: k)) = stripCSI k := by
  rw [stripCSI_cons, matchCSI_code hps hf]

theorem goodTail_decomp :
    ∀ l, goodTail l = true →
      ∃ ps f, l = ps ++ [f] ∧ ps.all isCSIParam = true ∧ isFinalLetter f = true := by
  intro l
  induction l with
  | nil => intro h; exact absurd h (by simp [goodTail])
  | cons c rest ih =>
    intro h
    cases rest with
    | nil => exact ⟨[], c, rfl, rfl, by simpa [goodTail] using h⟩
    | cons c2 rest2 =>
      rw [show goodTail (c :: c2 :: rest2) = (isCSIParam c && goodTail (c2 :: rest2)) from rfl] at h
      obtain ⟨hc, ht⟩ : isCSIParam c = true ∧ goodTail (c2 :: rest2) = true := by
        simpa using h
      obtain ⟨ps, f, heq, hall, hf⟩ := ih ht
      refine ⟨c :: ps, f, by simp [heq], ?_, hf⟩
      simp only [List.all_cons, hc, hall, Bool.and_self]

theorem stripCSI_goodCode {c : List Char} (h : goodCodeL c = true) (k : List Char) :
    stripCSI (c ++ k) = stripCSI k := by
  cases c with
  | nil => exact absurd h (by simp [goodCodeL])
  | cons c1 ctail =>
    cases ctail with
    | nil => exact absurd h (by simp [goodCodeL])
    | cons c2 rest =>
      rw [show goodCodeL (c1 :: c2 :: rest) = (c1 == '\x1b' && c2 == '[' && goodTail rest)
        from rfl] at h
      simp only [Bool.and_eq_true, beq_iff_eq] at h
      obtain ⟨⟨h1, h2⟩, h3⟩ := h
      subst h1; subst h2
      obtain ⟨ps, f, heq, hall, hf⟩ := goodTail_decomp rest h3
      subst heq
      have harr : ('\x1b' :: '[' :: (ps ++ [f])) ++ k = '\x1b' :: '[' :: (ps ++ f :: k) := by
        simp
      rw [harr, stripCSI_code_drop hall hf]

theorem matchCSI_cons_append (c : Char) (l b : List Char)
    (hb : ∀ d, b.head? = some d →
      isCSIParam d = false ∧ isFinalLetter d = false ∧ d ≠ '[') :
    matchCSI (c :: (l ++ b)) = (matchCSI (c :: l)).map (· ++ b) := by
  cases l with
  | nil =>
    rw [matchCSI_single]
    simp only [Option.map_none', List.nil_append]
    cases b with
    | nil => exact matchCSI_single c
    | cons d b2 =>
      by_cases hc : c = '\x1b'
      · subst hc
        have hd3 := (hb d rfl).2.2
        simp [matchCSI, hd3]
      · exact matchCSI_not_esc hc _
  | cons c2 l2 =>
    by_cases hc : c = '\x1b'
    case neg =>
      simp only [List.cons_append, matchCSI_not_esc hc]
      rfl
    case pos =>
      subst hc
      by_cases h2 : c2 = '['
      case neg =>
        simp [matchCSI, h2]
      case pos =>
        subst h2
        cases hd : l2.dropWhile isCSIParam with
        | cons f t =>
          have hcat : (l2 ++ b).dropWhile isCSIParam = f :: (t ++ b) := by
            rw [List.dropWhile_append, hd]
            simp
          simp only [List.cons_append, matchCSI]
          rw [hcat, hd]
          by_cases hfin : isFinalLetter f = true
          · simp [hfin]
          · simp [hfin]
        | nil =>
          have hall : ∀ a ∈ l2, isCSIParam a := List.dropWhile_eq_nil_iff.mp hd
          have hcat : (l2 ++ b).dropWhile isCSIParam = b.dropWhile isCSIParam :=
            List.dropWhile_append_of_pos hall
          simp only [List.cons_append, matchCSI]
          rw [hcat, hd]
          cases b with
          | nil => simp
          | cons d b2 =>
            obtain ⟨hd1, hd2, _⟩ := hb d rfl
            have hcond : ¬(isCSIParam d = true) := by
              rw [hd1]; exact Bool.false_ne_true
            rw [List.dropWhile_cons, if_neg hcond]
            simp [hd2]

theorem stripCSI_append_sep (a b : List Char) :
    stripCSI (a ++ ' ' :: b) = stripCSI a ++ ' ' :: stripCSI b := by
  have hsp : ∀ d : Char, (' ' :: b).head? = some d →
      isCSIParam d = false ∧ isFinalLetter d = false ∧ d ≠ '[' := by
    intro d hdd
    have : d = ' ' := by simpa using hdd.symm
    subst this
    refine ⟨by decide, by decide, by decide⟩
  have H : ∀ n (a : List Char), a.length ≤ n →
      stripCSI (a ++ ' ' :: b) = stripCSI a ++ ' ' :: stripCSI b := by
    intro n
    induction n with
    | zero =>
      intro a ha
      have h0 : a = [] := List.eq_nil_of_length_eq_zero (Nat.le_zero.mp ha)
      subst h0
      rw [List.nil_append, stripCSI_nil, List.nil_append, stripCSI_cons]
      rw [matchCSI_not_esc (by decide) b]
    | succ n ih =>
      intro a ha
      cases a with
      | nil =>
        rw [List.nil_append, stripCSI_nil, List.nil_append, stripCSI_cons]
        rw [matchCSI_not_esc (by decide) b]
      | cons c a2 =>
        rw [List.cons_append, stripCSI_cons, stripCSI_cons]
        rw [show (a2 ++ ' ' :: b) = a2 ++ (' ' :: b) from rfl]
        rw [matchCSI_cons_append c a2 (' ' :: b) hsp]
        cases hm : matchCSI (c :: a2) with
        | some t =>
          have hlen := matchCSI_some_length hm
          simp only [List.length_cons] at ha hlen
          simp only [Option.map_some']
          exact ih t (by omega)
        | none =>
          simp only [Option.map_none', List.length_cons] at ha ⊢
          rw [ih a2 (by omega)]
          rfl
  exact H a.length a (Nat.le_refl _)

theorem stripCSI_no_match_append {x b : List Char} (hx : hasCSIMatch x = false)
    (hb : ∀ d, b.head? = some d →
      isCSIParam d = false ∧ isFinalLetter d = false ∧ d ≠ '[') :
    stripCSI (x ++ b) = x ++ stripCSI b := by
  induction x with
  | nil => simp
  | cons c x2 ih =>
    obtain ⟨h1', h2⟩ : (matchCSI (c :: x2)).isSome = false ∧ hasCSIMatch x2 = false := by
      simpa [hasCSIMatch] using hx
    have h1 : matchCSI (c :: x2) = none := by
      cases hm : matchCSI (c :: x2) with
      | none => rfl
      | some t => rw [hm] at h1'; simp at h1'
    rw [List.cons_append, stripCSI_cons]
    rw [show (x2 ++ b) = x2 ++ b from rfl, matchCSI_cons_append c x2 b hb, h1]
    simp only [Option.map_none']
    rw [ih h2]
    rfl

theorem stripCSI_no_esc :
    ∀ l : List Char, (∀ c ∈ l, c ≠ '\x1b') → stripCSI l = l := by
  intro l
  induction l with
  | nil => intro _; rfl
  | cons c rest ih =>
    intro h
    rw [stripCSI_cons, matchCSI_not_esc (h c (by simp)) rest]
    rw [ih (fun x hx => h x (by simp [hx]))]



/-! ### Emoji and replacement lemmas -/

theorem stripCSI_reset : stripCSI ['\x1b', '[', '0', 'm'] = [] := rfl

theorem remove_emoji_idem (s : String) :
    remove_emoji (remove_emoji s) = remove_emoji s := by
  unfold remove_emoji
  simp [List.filter_filter]

theorem replaceChar_append (a b : List Char) (c : Char) (r : List Char) :
    replaceChar (a ++ b) c r = replaceChar a c r ++ replaceChar b c r := by
  induction a with
  | nil => rfl
  | cons x xs ih => simp [replaceChar, ih, List.append_assoc]

theorem emojiSubL_append (a b : List Char) :
    emojiSubL (a ++ b) = emojiSubL a ++ emojiSubL b := by
  simp [emojiSubL, replaceChar_append]

theorem emojiSubL_single (c : Char) :
    emojiSubL [c] = (match glyphLabel c with
      | some lab => lab.data
      | none => [c]) := by
  by_cases h1 : c = '🐛'
  · subst h1; rfl
  by_cases h2 : c = '📘'
  · subst h2; rfl
  by_cases h3 : c = '🎉'
  · subst h3; rfl
  by_cases h4 : c = '🚧'
  · subst h4; rfl
  by_cases h5 : c = '🐞'
  · subst h5; rfl
  by_cases h6 : c = '💀'
  · subst h6; rfl
  simp [emojiSubL, replaceChar, glyphLabel, h1, h2, h3, h4, h5, h6]

theorem emojiSubL_eq (l : List Char) :
    emojiSubL l = (l.map (fun c => match glyphLabel c with
      | some lab => lab.data
      | none => [c])).flatten := by
  induction l with
  | nil => rfl
  | cons c l2 ih =>
    rw [show (c :: l2) = [c] ++ l2 from rfl, emojiSubL_append, ih, emojiSubL_single]
    simp

theorem emojiSub_eq_glyphLabelSub (s : String) :
    (⟨emojiSubL s.data⟩ : String) = glyphLabelSub s := by
  unfold glyphLabelSub
  rw [emojiSubL_eq]

/-! ### Lemmas about the style table -/

theorem colorTable_goodCode : ∀ kv ∈ colorTable, goodCodeL kv.2.data = true := by
  decide

theorem colors_goodCode {s c : String} (h : colors s = some c) :
    goodCodeL c.data = true := by
  unfold colors at h
  cases hf : colorTable.find? (fun kv => kv.1 == s) with
  | none => rw [hf] at h; exact absurd h (by simp)
  | some kv =>
    rw [hf] at h
    simp only [Option.map_some'] at h
    have hkv : kv ∈ colorTable := List.mem_of_find?_eq_some hf
    have hgood := colorTable_goodCode kv hkv
    rw [show c = kv.2 from by injection h with h0; exact h0.symm]
    exact hgood

theorem mapColors_good {args codes : List String} (h : mapColors args = some codes) :
    ∀ c ∈ codes, goodCodeL c.data = true := by
  induction args generalizing codes with
  | nil =>
    unfold mapColors at h
    injection h with h0
    subst h0
    simp
  | cons a as ih =>
    unfold mapColors at h
    cases hc : colors a with
    | none => rw [hc] at h; exact absurd h (by simp)
    | some c0 =>
      rw [hc] at h
      cases hm : mapColors as with
      | none => rw [hm] at h; exact absurd h (by simp)
      | some cs =>
        rw [hm] at h
        simp only [Option.map_some'] at h
        have hcodes : codes = c0 :: cs := by injection h with h0; exact h0.symm
        subst hcodes
        intro c hcmem
        rcases List.mem_cons.mp hcmem with h' | h'
        · subst h'; exact colors_goodCode hc
        · exact ih hm c h'

theorem mapColors_isSome {args : List String} (h : ∀ s ∈ args, (colors s).isSome) :
    ∃ codes, mapColors args = some codes := by
  induction args with
  | nil => exact ⟨[], rfl⟩
  | cons a as ih =>
    obtain ⟨c0, hc0⟩ : ∃ c0, colors a = some c0 := by
      have := h a (by simp)
      cases hc : colors a with
      | none => rw [hc] at this; simp at this
      | some c0 => exact ⟨c0, rfl⟩
    obtain ⟨cs, hcs⟩ := ih (fun s hs => h s (by simp [hs]))
    refine ⟨c0 :: cs, ?_⟩
    unfold mapColors
    rw [hc0, hcs]
    rfl

theorem mapColors_none {args : List String} {s : String} (hmem : s ∈ args)
    (hbad : colors s = none) : mapColors args = none := by
  induction args with
  | nil => exact absurd hmem (by simp)
  | cons a as ih =>
    unfold mapColors
    cases hc : colors a with
    | none => rfl
    | some c0 =>
      have hsas : s ∈ as := by
        rcases List.mem_cons.mp hmem with h' | h'
        · subst h'; rw [hc] at hbad; exact absurd hbad (by simp)
        · exact h'
      rw [ih hsas]
      rfl

theorem stripCSI_strJoin_codes {codes : List String}
    (hgood : ∀ c ∈ codes, goodCodeL c.data = true) (k : List Char) :
    stripCSI ((strJoin codes).data ++ k) = stripCSI k := by
  induction codes with
  | nil => rfl
  | cons c0 cs ih =>
    have hdat : (strJoin (c0 :: cs)).data = c0.data ++ (strJoin cs).data := by
      simp [strJoin]
    rw [hdat, List.append_assoc, stripCSI_goodCode (hgood c0 (by simp))]
    exact ih (fun c h => hgood c (by simp [h]))

theorem colorstr_ge_two (a b : String) (t : List String) :
    colorstr (a :: b :: t) =
      colorstrAux ((a :: b :: t).dropLast) ((a :: b :: t).getLastD "") := rfl

/-! ### Claim C3: idempotence of the two stripping passes -/

/-- C3, counterexample: colour stripping is not idempotent.  On
`"\x1b\x1b[0m[0m"` the single pass removes the inner `\x1b[0m`, and the
leftover characters reassemble into a new escape sequence, which a second
pass removes. -/
theorem claim_C3_counterexample :
    remove_colorstr (remove_colorstr "\x1b\x1b[0m[0m") ≠
      remove_colorstr "\x1b\x1b[0m[0m" := by
  decide

/-- C3, amended: emoji stripping is idempotent for every string; colour
stripping is idempotent whenever its single pass leaves no ESC character in
its output (in general it is not idempotent, as stripping can splice a stray
ESC together with following text into a new escape sequence). -/
theorem claim_C3_amended :
    (∀ s : String, remove_emoji (remove_emoji s) = remove_emoji s) ∧
    (∀ s : String, (∀ c ∈ (remove_colorstr s).data, c ≠ '\x1b') →
      remove_colorstr (remove_colorstr s) = remove_colorstr s) := by
  refine ⟨remove_emoji_idem, ?_⟩
  intro s h
  exact congrArg String.mk (stripCSI_no_esc (remove_colorstr s).data h)

/-- C3, witness for the amended theorem at a concrete input. -/
theorem claim_C3_witness :
    (∀ c ∈ (remove_colorstr "\x1b[31mplain\x1b[0m").data, c ≠ '\x1b') ∧
    remove_colorstr (remove_colorstr "\x1b[31mplain\x1b[0m") =
      remove_colorstr "\x1b[31mplain\x1b[0m" :=
  ⟨by decide, claim_C3_amended.2 "\x1b[31mplain\x1b[0m" (by decide)⟩

/-! ### Claim C4: what `remove_colorstr` removes -/

/-- C4, counterexample: `"\x1b[?25h"` is a CSI sequence (parameter byte `?`,
final letter `h`), so the claim says it is deleted; `remove_colorstr` leaves
it untouched because its pattern only accepts digits and semicolons as
parameter bytes. -/
theorem claim_C4_counterexample :
    remove_colorstr "\x1b[?25h" = "\x1b[?25h" ∧
    remove_colorstr "\x1b[?25h" ≠ "" := by
  constructor <;> decide

/-- C4, amended: `remove_colorstr` removes, in one left-to-right pass, every
sequence `ESC [` + digits/semicolons + one ASCII letter, and leaves strings
without ESC untouched; CSI sequences with other parameter bytes (such as
`?`) are not removed. -/
theorem claim_C4_amended :
    (∀ (ps : List Char) (f : Char) (rest : List Char),
        ps.all isCSIParam = true → isFinalLetter f = true →
        stripCSI ('\x1b' :: '[' :: (ps ++ f :: rest)) = stripCSI rest) ∧
    (∀ s : String, (∀ c ∈ s.data, c ≠ '\x1b') → remove_colorstr s = s) ∧
    remove_colorstr "\x1b[?25h" = "\x1b[?25h" := by
  refine ⟨fun ps f rest hps hf => stripCSI_code_drop hps hf rest, ?_, by decide⟩
  intro s h
  exact congrArg String.mk (stripCSI_no_esc s.data h)

/-- C4, witness for the amended theorem at concrete inputs. -/
theorem claim_C4_witness :
    (['3', '1'].all isCSIParam = true) ∧ (isFinalLetter 'm' = true) ∧
    stripCSI ('\x1b' :: '[' :: (['3', '1'] ++ 'm' :: "ok".data)) = stripCSI "ok".data ∧
    remove_colorstr "plain" = "plain" :=
  ⟨by decide, by decide,
    claim_C4_amended.1 ['3', '1'] 'm' "ok".data (by decide) (by decide),
    claim_C4_amended.2.1 "plain" (by decide)⟩

/-! ### Claim C5: stripping undoes decoration -/

/-- C5: for a non-empty list of valid style names and a text free of escape
sequences (no position of it matches the colour pattern), `colorstr` produces
the style codes in order, then the text, then exactly one reset code, and
`remove_colorstr` recovers the text exactly. -/
theorem claim_C5 (styles : List String) (x : String) (hne : styles ≠ [])
    (hval : ∀ s ∈ styles, (colors s).isSome)
    (hx : hasCSIMatch x.data = false) :
    ∃ codes, mapColors styles = some codes ∧
      colorstr (styles ++ [x]) = some (strJoin codes ++ x ++ "\x1b[0m") ∧
      remove_colorstr (strJoin codes ++ x ++ "\x1b[0m") = x := by
  obtain ⟨codes, hcodes⟩ := mapColors_isSome hval
  refine ⟨codes, hcodes, ?_, ?_⟩
  · obtain ⟨a, t, rfl⟩ : ∃ a t, styles = a :: t := by
      cases styles with
      | nil => exact absurd rfl hne
      | cons a t => exact ⟨a, t, rfl⟩
    cases t with
    | nil =>
      rw [show (([a] ++ [x] : List String)) = a :: x :: [] from rfl, colorstr_ge_two]
      simp [colorstrAux, hcodes]
    | cons b t2 =>
      rw [show (((a :: b :: t2) ++ [x] : List String)) = a :: b :: (t2 ++ [x]) from rfl,
          colorstr_ge_two]
      have h1 : (a :: b :: (t2 ++ [x])).dropLast = a :: b :: t2 := by
        rw [show (a :: b :: (t2 ++ [x])) = (a :: b :: t2) ++ [x] from by simp]
        exact List.dropLast_concat
      have h2 : (a :: b :: (t2 ++ [x])).getLastD "" = x := by
        show (((a :: b :: t2) ++ [x]).getLastD "") = x
        exact List.getLastD_concat _ _ _
      rw [h1, h2]
      simp [colorstrAux, hcodes]
  · have hgood := mapColors_good hcodes
    have hb : ∀ d : Char, ("\x1b[0m".data).head? = some d →
        isCSIParam d = false ∧ isFinalLetter d = false ∧ d ≠ '[' := by
      intro d hdd
      have : d = '\x1b' := by
        have : ("\x1b[0m".data).head? = some '\x1b' := rfl
        rw [this] at hdd
        injection hdd with h0
        exact h0.symm
      subst this
      exact ⟨by decide, by decide, by decide⟩
    apply String.ext
    show stripCSI (strJoin codes ++ x ++ "\x1b[0m").data = x.data
    have hdata : (strJoin codes ++ x ++ "\x1b[0m").data =
        (strJoin codes).data ++ (x.data ++ "\x1b[0m".data) := by
      simp
    rw [hdata, stripCSI_strJoin_codes hgood,
        stripCSI_no_match_append hx hb,
        show stripCSI ("\x1b[0m".data) = [] from rfl, List.append_nil]

/-- C5, witness at a concrete style list and text. -/
theorem claim_C5_witness :
    ((["blue", "bold"] : List String) ≠ []) ∧
    (∀ s ∈ (["blue", "bold"] : List String), (colors s).isSome) ∧
    (hasCSIMatch ("hello world".data) = false) ∧
    ∃ codes, mapColors ["blue", "bold"] = some codes ∧
      colorstr (["blue", "bold"] ++ ["hello world"]) =
        some (strJoin codes ++ "hello world" ++ "\x1b[0m") ∧
      remove_colorstr (strJoin codes ++ "hello world" ++ "\x1b[0m") = "hello world" :=
  ⟨by decide, by decide, by decide,
    claim_C5 ["blue", "bold"] "hello world" (by decide) (by decide) (by decide)⟩

/-! ### Claim C6: unknown style names fail, known ones never do -/

/-- C6: a call with more than one argument and an unsupported style-name
argument fails (the dictionary lookup raises, modelled as `none`); a call
whose style-name arguments are all supported succeeds. -/
theorem claim_C6 (input : List String) (hne : input ≠ []) :
    ((input.length > 1 ∧ ∃ s ∈ input.dropLast, colors s = none) →
      colorstr input = none) ∧
    ((∀ s ∈ input.dropLast, (colors s).isSome) → (colorstr input).isSome) := by
  constructor
  · rintro ⟨hlen, s, hs, hbad⟩
    obtain ⟨a, b, t, rfl⟩ : ∃ a b t, input = a :: b :: t := by
      cases input with
      | nil => exact absurd rfl hne
      | cons a rest =>
        cases rest with
        | nil => simp at hlen
        | cons b t => exact ⟨a, b, t, rfl⟩
    rw [colorstr_ge_two]
    unfold colorstrAux
    rw [mapColors_none hs hbad]
    rfl
  · intro hall
    cases input with
    | nil => exact absurd rfl hne
    | cons a rest =>
      cases rest with
      | nil =>
        show (colorstrAux ["blue", "bold"] a).isSome
        unfold colorstrAux
        rw [show mapColors ["blue", "bold"] = some ["\x1b[34m", "\x1b[1m"] from rfl]
        rfl
      | cons b t =>
        rw [colorstr_ge_two]
        unfold colorstrAux
        obtain ⟨codes, hcodes⟩ := mapColors_isSome hall
        rw [hcodes]
        rfl

/-- C6, witness: a bad style name fails, good ones succeed. -/
theorem claim_C6_witness :
    ((["nope", "hi"] : List String) ≠ []) ∧ colorstr ["nope", "hi"] = none ∧
    ((["magenta", "hi"] : List String) ≠ []) ∧ (colorstr ["magenta", "hi"]).isSome :=
  ⟨by decide,
    (claim_C6 ["nope", "hi"] (by decide)).1 ⟨by decide, "nope", by decide, by decide⟩,
    by decide,
    (claim_C6 ["magenta", "hi"] (by decide)).2 (by decide)⟩

/-! ### Claim C7: the `_emojis` encoding fallback -/

/-- C7: when the encoding probe accepts the string it is returned unchanged;
when the probe fails (either the destination cannot encode or the probe
itself raises — both are `Except.error`), each of the six known severity
glyphs is replaced by its label and every other character, including glyphs
with no label mapping, is kept; the fallback itself never raises (it is a
total function). -/
theorem claim_C7 (p : String → Except Unit Unit) (s : String) :
    (p s = Except.ok () → _emojis p s = s) ∧
    (p s = Except.error () → _emojis p s = glyphLabelSub s) := by
  constructor
  · intro h
    unfold _emojis
    rw [h]
  · intro h
    unfold _emojis
    rw [h]
    exact emojiSub_eq_glyphLabelSub s

/-- C7, witness: a succeeding probe is the identity; a failing probe replaces
the SUCCESS glyph by its label and keeps the unmapped glyph. -/
theorem claim_C7_witness :
    ((fun _ => Except.ok ()) "a🎉🦄b" : Except Unit Unit) = Except.ok () ∧
    _emojis (fun _ => Except.ok ()) "a🎉🦄b" = "a🎉🦄b" ∧
    ((fun _ => Except.error ()) "a🎉🦄b" : Except Unit Unit) = Except.error () ∧
    _emojis (fun _ => Except.error ()) "a🎉🦄b" = glyphLabelSub "a🎉🦄b" ∧
    glyphLabelSub "a🎉🦄b" = "aSUCCESS🦄b" :=
  ⟨rfl, (claim_C7 (fun _ => Except.ok ()) "a🎉🦄b").1 rfl, rfl,
    (claim_C7 (fun _ => Except.error ()) "a🎉🦄b").2 rfl, by decide⟩

/-! ### Claim C1: the fully decorated SUCCESS line -/

/-- C1, counterexample: the decorated line is produced as claimed, but
stripping colour and emoji leaves a double space where the glyph was deleted,
so the result is not `"2025-10-06 14:32:15 SUCCESS Message"`. -/
theorem claim_C1_counterexample :
    format ⟨true, true, true⟩ ⟨25, "SUCCESS", "Message", "2025-10-06 14:32:15", none⟩
        (fun _ => Except.ok ()) =
      Except.ok "\x1b[32m\x1b[1m2025-10-06 14:32:15\x1b[0m \x1b[1m\x1b[32mSUCCESS\x1b[0m 🎉 Message" ∧
    remove_emoji (remove_colorstr
        "\x1b[32m\x1b[1m2025-10-06 14:32:15\x1b[0m \x1b[1m\x1b[32mSUCCESS\x1b[0m 🎉 Message") ≠
      "2025-10-06 14:32:15 SUCCESS Message" := by
  constructor
  · rfl
  · decide

/-- C1, amended: the output begins with the coloured timestamp, then the
coloured bold `SUCCESS` label, a space, the SUCCESS glyph, a space, then the
message; stripping colour and emoji yields
`"2025-10-06 14:32:15 SUCCESS  Message"` — with two spaces, because deleting
the glyph keeps the spaces on both sides of it. -/
theorem claim_C1_amended :
    format ⟨true, true, true⟩ ⟨25, "SUCCESS", "Message", "2025-10-06 14:32:15", none⟩
        (fun _ => Except.ok ()) =
      Except.ok ("\x1b[32m\x1b[1m" ++ "2025-10-06 14:32:15" ++ "\x1b[0m" ++ " " ++
        "\x1b[1m\x1b[32m" ++ "SUCCESS" ++ "\x1b[0m" ++ " " ++ "🎉" ++ " " ++ "Message") ∧
    remove_emoji (remove_colorstr
        ("\x1b[32m\x1b[1m" ++ "2025-10-06 14:32:15" ++ "\x1b[0m" ++ " " ++
         "\x1b[1m\x1b[32m" ++ "SUCCESS" ++ "\x1b[0m" ++ " " ++ "🎉" ++ " " ++ "Message")) =
      "2025-10-06 14:32:15 SUCCESS  Message" := by
  constructor
  · rfl
  · decide

/-! ### Claim C2: purity of `format` -/

set_option maxRecDepth 8192 in
/-- C2, counterexample: two invocations with the identical record and
configuration return different strings when the destination encoding state
differs — `format` consults the stdout encoding through the `_emojis` probe,
so it is not a function of the record, the configuration and the style table
alone. -/
theorem claim_C2_counterexample :
    format ⟨true, true, true⟩ ⟨25, "SUCCESS", "Message", "2025-10-06 14:32:15", none⟩
        (fun _ => Except.ok ()) =
      Except.ok "\x1b[32m\x1b[1m2025-10-06 14:32:15\x1b[0m \x1b[1m\x1b[32mSUCCESS\x1b[0m 🎉 Message" ∧
    format ⟨true, true, true⟩ ⟨25, "SUCCESS", "Message", "2025-10-06 14:32:15", none⟩
        (fun _ => Except.error ()) =
      Except.ok "\x1b[32m\x1b[1m2025-10-06 14:32:15\x1b[0m \x1b[1m\x1b[32mSUCCESS\x1b[0m SUCCESS Message" ∧
    ("\x1b[32m\x1b[1m2025-10-06 14:32:15\x1b[0m \x1b[1m\x1b[32mSUCCESS\x1b[0m 🎉 Message" : String) ≠
      "\x1b[32m\x1b[1m2025-10-06 14:32:15\x1b[0m \x1b[1m\x1b[32mSUCCESS\x1b[0m SUCCESS Message" := by
  refine ⟨rfl, rfl, ?_⟩
  decide

/-- C2, amended: `format` is a pure, deterministic function of the record,
the configuration, the static style table and the destination encoding
probe; it mutates nothing, and two invocations agree whenever the probes
agree on the composed line. -/
theorem claim_C2_amended (f : PrettyFormatter) (r : LogRecord)
    (p₁ p₂ : String → Except Unit Unit)
    (h : ∀ o, outPre f r = Except.ok o → p₁ o = p₂ o) :
    format f r p₁ = format f r p₂ := by
  unfold format
  cases ho : outPre f r with
  | error e => rfl
  | ok o =>
    have hp := h o ho
    show Except.ok (_emojis p₁ o) = Except.ok (_emojis p₂ o)
    unfold _emojis
    rw [hp]

/-- C2, witness: two extensionally different probes that agree on the
composed line give the same output. -/
theorem claim_C2_amended_witness :
    format ⟨true, true, true⟩ ⟨25, "SUCCESS", "Message", "2025-10-06 14:32:15", none⟩
        (fun _ => Except.ok ()) =
      format ⟨true, true, true⟩ ⟨25, "SUCCESS", "Message", "2025-10-06 14:32:15", none⟩
        (fun s => if s = "" then Except.error () else Except.ok ()) :=
  claim_C2_amended _ _ _ _ (fun o ho => by
    have hoeq : o =
        "\x1b[32m\x1b[1m2025-10-06 14:32:15\x1b[0m \x1b[1m\x1b[32mSUCCESS\x1b[0m 🎉 Message" := by
      rw [show outPre ⟨true, true, true⟩ ⟨25, "SUCCESS", "Message", "2025-10-06 14:32:15", none⟩ =
        Except.ok "\x1b[32m\x1b[1m2025-10-06 14:32:15\x1b[0m \x1b[1m\x1b[32mSUCCESS\x1b[0m 🎉 Message"
        from rfl] at ho
      injection ho with h0
      exact h0.symm
    subst hoeq
    rfl)

/-! ### Claim C10: single-argument call of `colorstr` -/

/-- C10: with exactly one argument the defaults `blue` and `bold` are applied
and the argument is always the text — even when it names a style such as
`"red"`. -/
theorem claim_C10 (s : String) :
    colorstr [s] = some ("\x1b[34m" ++ "\x1b[1m" ++ s ++ "\x1b[0m") := by
  show colorstrAux ["blue", "bold"] s = _
  unfold colorstrAux
  rw [show mapColors ["blue", "bold"] = some ["\x1b[34m", "\x1b[1m"] from rfl]
  simp only [Option.map_some', Option.some.injEq]
  apply String.ext
  simp [strJoin]

/-! ### Claim C8: `format` never raises and keeps the (processed) message -/

theorem colorstrE_two_ok {s1 s2 : String} (h1 : (colors s1).isSome)
    (h2 : (colors s2).isSome) (txt : String) :
    ∃ o, colorstrE [s1, s2, txt] = Except.ok o := by
  have hall : ∀ s ∈ [s1, s2], (colors s).isSome := by
    intro s hs
    simp only [List.mem_cons, List.not_mem_nil, or_false] at hs
    rcases hs with rfl | rfl
    · exact h1
    · exact h2
  obtain ⟨codes, hcodes⟩ := mapColors_isSome hall
  unfold colorstrE
  rw [show colorstr [s1, s2, txt] = colorstrAux [s1, s2] txt from rfl]
  unfold colorstrAux
  rw [hcodes]
  exact ⟨_, rfl⟩

theorem LEVEL_STYLE_color_valid (n : Nat) :
    (match LEVEL_STYLE n with
      | some (_, c, _) => (colors c).isSome
      | none => true) = true := by
  unfold LEVEL_STYLE
  split_ifs <;> rfl

theorem levelStyle_color_isSome {r : LogRecord} {c : String}
    (h : (levelStyle r).2.1 = some c) : (colors c).isSome := by
  unfold levelStyle at h
  cases hl : LEVEL_STYLE r.levelno with
  | none => rw [hl] at h; simp at h
  | some trip =>
    obtain ⟨l0, c0, e0⟩ := trip
    rw [hl] at h
    have hc : c0 = c := by simpa using h
    subst hc
    have hv := LEVEL_STYLE_color_valid r.levelno
    rw [hl] at hv
    exact hv

theorem mkLevelTag_ok (f : PrettyFormatter) (r : LogRecord) :
    ∃ tag, mkLevelTag f (levelStyle r).1 (levelStyle r).2.1 (levelStyle r).2.2 =
      Except.ok tag := by
  unfold mkLevelTag
  cases hcol : (levelStyle r).2.1 with
  | none => cases f.use_color <;> exact ⟨_, rfl⟩
  | some c =>
    cases hu : f.use_color with
    | false => exact ⟨_, rfl⟩
    | true =>
      have hc : (colors c).isSome := levelStyle_color_isSome hcol
      obtain ⟨o, ho⟩ := colorstrE_two_ok (by decide : (colors "bold").isSome) hc
        (levelStyle r).1
      simp [ho]

theorem mkTsPart_ok (f : PrettyFormatter) (r : LogRecord) :
    ∃ tsl, mkTsPart f r (levelStyle r).2.1 = Except.ok tsl := by
  unfold mkTsPart
  cases hs : f.show_time with
  | false => exact ⟨[], rfl⟩
  | true =>
    cases hcol : (levelStyle r).2.1 with
    | none => cases f.use_color <;> exact ⟨_, rfl⟩
    | some c =>
      cases hu : f.use_color with
      | false => exact ⟨_, rfl⟩
      | true =>
        have hc : (colors c).isSome := levelStyle_color_isSome hcol
        obtain ⟨o, ho⟩ := colorstrE_two_ok hc (by decide : (colors "bold").isSome)
          r.timeText
        simp only [ho]
        exact ⟨[o], rfl⟩

theorem outPre_ok (f : PrettyFormatter) (r : LogRecord) :
    ∃ tag tsl,
      mkLevelTag f (levelStyle r).1 (levelStyle r).2.1 (levelStyle r).2.2 =
        Except.ok tag ∧
      mkTsPart f r (levelStyle r).2.1 = Except.ok tsl ∧
      outPre f r = Except.ok (stripsCE f (joinSp
        ((tsl ++ [tag, baseMsg r]).filter (fun q => q != "")))) := by
  obtain ⟨tag, htag⟩ := mkLevelTag_ok f r
  obtain ⟨tsl, htsl⟩ := mkTsPart_ok f r
  refine ⟨tag, tsl, htag, htsl, ?_⟩
  unfold outPre
  rw [htag, htsl]

theorem remove_colorstr_sep (a b : String) :
    remove_colorstr (a ++ " " ++ b) = remove_colorstr a ++ " " ++ remove_colorstr b := by
  apply String.ext
  show stripCSI ((a ++ " " ++ b).data) = _
  have h1 : (a ++ " " ++ b).data = a.data ++ ' ' :: b.data := by simp
  rw [h1, stripCSI_append_sep]
  simp [remove_colorstr]

theorem remove_emoji_sep (a b : String) :
    remove_emoji (a ++ " " ++ b) = remove_emoji a ++ " " ++ remove_emoji b := by
  apply String.ext
  have hsp : List.filter (fun c => !isEmojiChar c) [' '] = [' '] := rfl
  have hsp2 : (!isEmojiChar ' ') = true := rfl
  simp [remove_emoji, List.filter_append, List.filter_cons, hsp, hsp2]

theorem stripsCE_empty (f : PrettyFormatter) : stripsCE f "" = "" := by
  unfold stripsCE
  cases f.use_color <;> cases f.use_emoji <;> rfl

theorem stripsCE_sep (f : PrettyFormatter) (a b : String) :
    stripsCE f (a ++ " " ++ b) = stripsCE f a ++ " " ++ stripsCE f b := by
  unfold stripsCE
  cases f.use_color <;> cases f.use_emoji <;>
    simp [remove_colorstr_sep, remove_emoji_sep]

theorem joinSp_concat (xs : List String) (m : String) :
    joinSp (xs ++ [m]) =
      (match xs with
        | [] => m
        | _ :: _ => joinSp xs ++ " " ++ m) := by
  induction xs with
  | nil => rfl
  | cons x xs2 ih =>
    cases xs2 with
    | nil => rfl
    | cons y ys =>
      show x ++ " " ++ joinSp ((y :: ys) ++ [m]) = (x ++ " " ++ joinSp (y :: ys)) ++ " " ++ m
      rw [ih]
      simp [String.append_assoc]

/-- C8, amended: `format` (with every fallible internal step modelled:
coloured-style lookup, exception-trace rendering, encoding probe) never
returns an error, and the returned line always ends with the base message as
transformed by the configured stripping passes — possibly with the known
glyphs replaced by their labels when the destination cannot encode the
line. -/
theorem claim_C8_amended (f : PrettyFormatter) (r : LogRecord)
    (p : String → Except Unit Unit) :
    ∃ s : String, format f r p = Except.ok s ∧
      ∃ pre : List Char,
        s.data = pre ++ (processedMsg f r).data ∨
        s.data = pre ++ (glyphLabelSub (processedMsg f r)).data := by
  obtain ⟨tag, tsl, htag, htsl, hout⟩ := outPre_ok f r
  have hdec : ∃ pre0,
      (stripsCE f (joinSp ((tsl ++ [tag, baseMsg r]).filter (fun q => q != "")))).data =
        pre0 ++ (processedMsg f r).data := by
    by_cases hm : baseMsg r = ""
    · refine ⟨(stripsCE f (joinSp ((tsl ++ [tag, baseMsg r]).filter (fun q => q != "")))).data, ?_⟩
      have hpm : processedMsg f r = "" := by
        unfold processedMsg
        rw [hm]
        exact stripsCE_empty f
      rw [hpm]
      simp
    · have hfil : (tsl ++ [tag, baseMsg r]).filter (fun q => q != "") =
          (tsl ++ [tag]).filter (fun q => q != "") ++ [baseMsg r] := by
        rw [show (tsl ++ [tag, baseMsg r]) = (tsl ++ [tag]) ++ [baseMsg r] from by simp]
        rw [List.filter_append]
        congr 1
        simp [hm]
      rw [hfil, joinSp_concat]
      cases ho : (tsl ++ [tag]).filter (fun q => q != "") with
      | nil =>
        refine ⟨[], ?_⟩
        unfold processedMsg
        simp
      | cons y ys =>
        rw [stripsCE_sep]
        refine ⟨(stripsCE f (joinSp (y :: ys))).data ++ [' '], ?_⟩
        unfold processedMsg
        simp [List.append_assoc]
  obtain ⟨pre0, hpre⟩ := hdec
  refine ⟨_emojis p (stripsCE f (joinSp ((tsl ++ [tag, baseMsg r]).filter (fun q => q != "")))),
    by unfold format; rw [hout]; rfl, ?_⟩
  revert hpre
  generalize stripsCE f (joinSp ((tsl ++ [tag, baseMsg r]).filter (fun q => q != ""))) = o
  intro hpre
  unfold _emojis
  cases hp : p o with
  | ok u => exact ⟨pre0, Or.inl hpre⟩
  | error u =>
    refine ⟨emojiSubL pre0, Or.inr ?_⟩
    show emojiSubL o.data = _
    rw [hpre, emojiSubL_append]
    congr 1
    exact congrArg String.data (emojiSub_eq_glyphLabelSub (processedMsg f r))

/-- C8, counterexample: with `use_emoji=false` and a message consisting of a
glyph, the returned line does not contain the base message at all — the
emoji-stripping pass deletes it — so "a line containing at least the base
message" fails; the call still returns a line rather than raising. -/
theorem claim_C8_counterexample :
    format ⟨false, false, false⟩ ⟨25, "SUCCESS", "🎉", "t", none⟩ (fun _ => Except.ok ()) =
      Except.ok "SUCCESS " ∧
    ¬ (("🎉" : String).data <:+: ("SUCCESS " : String).data) := by
  exact ⟨rfl, by decide⟩

/-! ### Claim C9: idempotent handler attachment -/

/-- C9: running `set_logging` twice on a fresh logger with the same
environment, verbosity and destinations leaves the state of the first run
unchanged (the second run updates the existing stdout handler in place with
the same level and formatter, and skips the existing file handler), with
exactly one stdout stream handler and — when a non-empty file path was
given — exactly one file handler for its absolute path. -/
theorem claim_C9 (env : EnvCfg) (ap : String → String) (v : Bool) (lf : Option String) :
    set_logging env ap v lf (set_logging env ap v lf initLogger) =
      set_logging env ap v lf initLogger ∧
    (set_logging env ap v lf initLogger).handlers.countP isStdoutStream = 1 ∧
    (match lf with
      | some pth => pth ≠ "" →
          (set_logging env ap v lf initLogger).handlers.countP (isFileFor (ap pth)) = 1
      | none => True) := by
  cases lf with
  | none =>
    refine ⟨?_, ?_, trivial⟩ <;>
      simp [set_logging, initLogger, isStdoutStream, List.countP_cons, List.countP_nil]
  | some pth =>
    by_cases hp : pth = ""
    · subst hp
      refine ⟨?_, ?_, fun h => absurd rfl h⟩ <;>
        simp [set_logging, initLogger, isStdoutStream, List.countP_cons, List.countP_nil]
    · have hp' : (pth != "") = true := by simp [hp]
      refine ⟨?_, ?_, fun _ => ?_⟩ <;>
        simp [set_logging, initLogger, isStdoutStream, isFileFor, hp',
          List.countP_cons, List.countP_nil]

/-- C9, witness at a concrete environment, name and file path. -/
theorem claim_C9_witness :
    set_logging ⟨false, false, false⟩ id true (some "app.log")
        (set_logging ⟨false, false, false⟩ id true (some "app.log") initLogger) =
      set_logging ⟨false, false, false⟩ id true (some "app.log") initLogger ∧
    (set_logging ⟨false, false, false⟩ id true (some "app.log") initLogger).handlers.countP
        isStdoutStream = 1 ∧
    (set_logging ⟨false, false, false⟩ id true (some "app.log") initLogger).handlers.countP
        (isFileFor (id "app.log")) = 1 := by
  obtain ⟨h1, h2, h3⟩ := claim_C9 ⟨false, false, false⟩ id true (some "app.log")
  exact ⟨h1, h2, h3 (by decide)⟩

end PrettyLogging